import Mathlib

/-!
Shallow embedding of the SLURM DRM adapter (`cosmos/job/drm/drm_slurm.py`).

Python strings are modelled as `List Char` so that every operation is
executable and kernel-reducible.  Python dictionaries are modelled as
association lists whose update operations keep the first occurrence of a
key in place (last write wins on lookup, matching `dict` semantics for the
inputs the adapter builds).  Subprocess invocations are modelled by passing
their observable results (captured stdout/stderr/exit status) as explicit
inputs.
-/

set_option maxRecDepth 8192

deriving instance DecidableEq for Except

/-- Python strings, modelled as lists of characters. -/
abbrev Str := List Char

/-- Python `str.strip()`: remove leading and trailing whitespace. -/
def pyStrip (s : Str) : Str :=
  ((s.dropWhile Char.isWhitespace).reverse.dropWhile Char.isWhitespace).reverse

/-- Helper for `pyWords`: accumulate the current (reversed) word while
scanning; whitespace runs separate words and produce no empty tokens. -/
def pyWordsAux : Str → Str → List Str
  | [], cur => if cur = [] then [] else [cur.reverse]
  | c :: cs, cur =>
    if c.isWhitespace then
      if cur = [] then pyWordsAux cs [] else cur.reverse :: pyWordsAux cs []
    else pyWordsAux cs (c :: cur)

/-- Python `str.split()` with no argument: split on runs of whitespace,
discarding empty tokens. -/
def pyWords (s : Str) : List Str := pyWordsAux s []

/-- Helper for `splitLinesLF`: accumulate the current (reversed) line. -/
def splitLinesAux : Str → Str → List Str
  | [], cur => [cur.reverse]
  | c :: cs, cur =>
    if c = '\n' then cur.reverse :: splitLinesAux cs []
    else splitLinesAux cs (c :: cur)

/-- Python `str.split(10.chr)` (split on the newline character, keeping
empty segments; always returns at least one segment). -/
def splitLinesLF (s : Str) : List Str := splitLinesAux s []

/-- Python `re.split` on whitespace runs applied to a stripped line, as in
`_qstat_all`: `re.split` of an empty string yields one empty token. -/
def reSplitStrip (s : Str) : List Str :=
  let t := pyStrip s
  if t = [] then [[]] else pyWords t

/-- Python substring test `pat in hay`. -/
def subOf (pat : Str) : Str → Bool
  | [] => pat.isPrefixOf []
  | c :: t => pat.isPrefixOf (c :: t) || subOf pat t

/-- Association-list lookup modelling `d[k]` / `k in d` (first matching
key wins; the update operations below keep keys unique). -/
def alookup (k : Str) : List (Str × α) → Option α
  | [] => none
  | (k2, v) :: t => if k2 = k then some v else alookup k t

/-- Association-list update modelling `d[k] = v`: overwrite the first
occurrence in place, or append a new entry at the end. -/
def aset (k : Str) (v : α) : List (Str × α) → List (Str × α)
  | [] => [(k, v)]
  | (k2, v2) :: t => if k2 = k then (k, v) :: t else (k2, v2) :: aset k v t

/-- Association-list update modelling `d[k] += s` on string values. -/
def aappend (k : Str) (s : Str) : List (Str × Str) → List (Str × Str)
  | [] => []
  | (k2, v2) :: t => if k2 = k then (k2, v2 ++ s) :: t else (k2, v2) :: aappend k s t

/-- A row of the status table: header name to column value. -/
abbrev Row := List (Str × Str)

/-- `_qstat_all`'s result: job id to row of named string fields. -/
abbrev StatusTable := List (Str × Row)

/-- The status codes `filter_is_done` treats as finished
(`['F', 'BF', 'CA', 'CD', 'NF', 'PR', 'R', 'TO']` in the source). -/
def finishedStates : List Str :=
  ["F".data, "BF".data, "CA".data, "CD".data, "NF".data, "PR".data,
   "R".data, "TO".data]

/-- Per-task completion test of `DRM_SLURM.filter_is_done`:
`jid not in qjobs or any(finished_state in qjobs[jid].get(ST) for ...)`.
The source indexes `qjobs[jid]` with the literal key `ST`; a row without
that key raises a Python `KeyError`, modelled as `none`. -/
def taskIsDone (qjobs : StatusTable) (jid : Str) : Option Bool :=
  match alookup jid qjobs with
  | none => some true
  | some row =>
    match alookup "ST".data row with
    | none => none
    | some st => some (finishedStates.any fun c => subOf c st)

/-- Failure raised by the `scontrol show jobid` output parser in
`_qacct_raw` (a Python `EnvironmentError` whose message carries the
offending token and the full raw output). -/
structure ScontrolParseError where
  token : Str
  raw : Str
deriving DecidableEq

/-- Split a token at the first occurrence of the equals sign, as
`kv.find` plus slicing does in `_qacct_raw`; `none` when the token
contains no equals sign. -/
def splitEq (tok : Str) : Option (Str × Str) :=
  match tok.span (fun c => !(c == '=')) with
  | (_, []) => none
  | (k, _ :: v) => some (k, v)

/-- The token loop of `_qacct_raw`'s parser: `acc` is `acct_dict`, `cur`
is the current key `k` (`none` before any key has been seen). -/
def parseToks (raw : Str) (acc : List (Str × Str)) (cur : Option Str) :
    List Str → Except ScontrolParseError (List (Str × Str))
  | [] => .ok acc
  | tok :: rest =>
    match splitEq tok with
    | some (k, v) => parseToks raw (aset k v acc) (some k) rest
    | none =>
      match cur with
      | some k => parseToks raw (aappend k (' ' :: tok) acc) (some k) rest
      | none => .error ⟨tok, raw⟩

/-- The key/value parser of `_qacct_raw`: tokenize
`qacct_stdout_str.strip().split()` and fold the token loop. -/
def scontrolParse (raw : Str) : Except ScontrolParseError (List (Str × Str)) :=
  parseToks raw [] none (pyWords (pyStrip raw))

/-- Result of one `scontrol show jobid -d -o <id>` invocation: `ok` is
false when `check_output` raised `CalledProcessError`; `stdout` and
`stderr` are the captured streams. -/
structure QueryResult where
  ok : Bool
  stdout : Str
  stderr : Str

/-- The sentinel stderr text recognized by `_qacct_raw`. -/
def sentinelStderr : Str := "slurm_load_jobs error: Invalid job id specified".data

/-- The break condition of `_qacct_raw`'s retry loop: the command
succeeded and its stdout is non-empty after stripping. -/
def attemptSucceeded (r : QueryResult) : Bool :=
  r.ok && !(pyStrip r.stdout).isEmpty

/-- Fatal outcomes of `_qacct_raw`.  `retryExhausted` models the
`ValueError` raised on fallthrough; its `triesReported` field is the
loop variable `i` as interpolated into the message (`after %d tries`).
`nameErr` models the Python `NameError` reached when `xrange(0)` skips
the loop body and the fallthrough reads the unbound loop variable;
`zeroDivErr` models `timeout / quantum` with a zero quantum. -/
inductive QacctError where
  | parseErr (e : ScontrolParseError)
  | retryExhausted (jobID : Str) (triesReported : Nat)
  | nameErr
  | zeroDivErr
deriving DecidableEq

/-- How `_qacct_raw`'s retry loop ends. -/
inductive LoopOutcome where
  | gotStdout (s : Str)
  | sentinelHit
  | exhausted
deriving DecidableEq

/-- The retry loop of `_qacct_raw`: run attempts `i, i+1, ...` while
`rem` attempts remain; returns the number of attempts actually made and
how the loop ended.  Per attempt: break with the stdout when the command
succeeded with non-empty stripped stdout; short-circuit when the stripped
stderr equals the sentinel; otherwise log, sleep, retry. -/
def runAttempts (query : Nat → QueryResult) : Nat → Nat → Nat × LoopOutcome
  | _, 0 => (0, .exhausted)
  | i, rem + 1 =>
    let r := query i
    if attemptSucceeded r then (1, .gotStdout r.stdout)
    else if pyStrip r.stderr = sentinelStderr then (1, .sentinelHit)
    else
      ((runAttempts query (i + 1) rem).1 + 1, (runAttempts query (i + 1) rem).2)

/-- `_qacct_raw(task, timeout, quantum)`: `query i` is the observable
result of the `scontrol` invocation on attempt `i`.  Returns the number
of attempts made together with the parsed record, the minimal
`JobId`-only record on the sentinel, or the fatal error. -/
def qacct_raw (query : Nat → QueryResult) (jobID : Str)
    (timeout quantum : Nat) : Nat × Except QacctError (List (Str × Str)) :=
  if quantum = 0 then (0, .error .zeroDivErr)
  else
    let numRetries := timeout / quantum
    if numRetries = 0 then (0, .error .nameErr)
    else
      match runAttempts query 0 numRetries with
      | (a, .gotStdout s) => (a, (scontrolParse s).mapError .parseErr)
      | (a, .sentinelHit) => (a, .ok [("JobId".data, jobID)])
      | (a, .exhausted) => (a, .error (.retryExhausted jobID (numRetries - 1)))

/-- Ways the `squeue` invocation in `_qstat_all` can fail; both are
caught by `except (sp.CalledProcessError, OSError)`. -/
inductive QstatInvokeError where
  | calledProcessError
  | osError
deriving DecidableEq

/-- Build one row of the status table: `dict(zip(keys, items))`. -/
def zipRow (keys items : List Str) : Row :=
  (keys.zip items).foldl (fun r kv => aset kv.1 kv.2 r) []

/-- The success path of `_qstat_all`: split stripped stdout into lines,
parse the first line as headers, each further line as a row keyed by its
first column. -/
def qstatParse (out : Str) : StatusTable :=
  match splitLinesLF (pyStrip out) with
  | [] => []
  | header :: rows =>
    let keys := reSplitStrip header
    rows.foldl
      (fun acc l =>
        match reSplitStrip l with
        | [] => acc
        | item0 :: items => aset item0 (zipRow keys (item0 :: items)) acc)
      []

/-- `_qstat_all()`: the argument is the observable result of running
`squeue`; any invocation failure yields an empty table. -/
def qstat_all (result : Except QstatInvokeError Str) : StatusTable :=
  match result with
  | .error _ => []
  | .ok out => qstatParse out

/-- `DRM_SLURM.drm_statuses(tasks)`: the Boolean records whether the
`squeue` listing command was invoked (the source only calls `_qstat_all`
when `len(tasks)` is non-zero); the list maps each task's job id to
`qjobs.get(jid, dict()).get(ST, unknown)`. -/
def drm_statuses (tasks : List Str) (result : Except QstatInvokeError Str) :
    Bool × List (Str × Str) :=
  match tasks with
  | [] => (false, [])
  | _ =>
    let qjobs := qstat_all result
    (true, tasks.map fun jid =>
      (jid, (alookup "ST".data ((alookup jid qjobs).getD [])).getD "???".data))

/-- The maximal leading digit run used for the regex fragment matching
one-or-more digits greedily. -/
def digitRun (s : Str) : Str := s.takeWhile Char.isDigit

/-- Match the pattern `job` + space + digit run at the start of the
string: the literal `job ` followed by at least one digit yields the
maximal digit run. -/
def jobPrefixDigits : Str → Option Str
  | 'j' :: 'o' :: 'b' :: ' ' :: rest =>
    match digitRun rest with
    | [] => none
    | d :: ds => some (d :: ds)
  | _ => none

/-- `re.search` for the pattern `job` + space + digit run in
`DRM_SLURM.submit_job`: scan left to right for the first position where
the pattern matches and return the captured digit run. -/
def searchJobDigits : Str → Option Str
  | [] => none
  | c :: cs =>
    match jobPrefixDigits (c :: cs) with
    | some ds => some ds
    | none => searchJobDigits cs

/-- The failure of `DRM_SLURM.submit_job`'s id extraction: when
`re.search` returns `None`, `None.group(1)` raises a Python
`AttributeError` whose fixed message mentions neither the stdout nor a
parse failure; the constructor therefore carries no payload. -/
inductive SubmitError where
  | attributeError
deriving DecidableEq

/-- The job-id extraction of `DRM_SLURM.submit_job` applied to the
captured `sbatch` stdout. -/
def submit_jobID_extract (stdout : Str) : Except SubmitError Str :=
  match searchJobDigits stdout with
  | some ds => .ok ds
  | none => .error .attributeError

/-- Fuel-indexed helper for `chunksOf`; the fuel is an upper bound on the
list length, so it never runs out when `chunksOf` supplies it. -/
def chunksOfAux (n : Nat) : Nat → List α → List (List α)
  | 0, _ => []
  | _ + 1, [] => []
  | fuel + 1, x :: xs => (x :: xs.take (n - 1)) :: chunksOfAux n fuel (xs.drop (n - 1))

/-- Chunking as performed by `more_itertools.grouper(50, tasks)` before
padding is taken into account: consecutive blocks of `n` elements. -/
def chunksOf (n : Nat) (l : List α) : List (List α) :=
  chunksOfAux n l.length l

/-- `grouper` pads the last group to exactly `n` entries with `None`. -/
def grouperPadded (n : Nat) (l : List (Option α)) : List (List (Option α)) :=
  chunksOf n (l ++ List.replicate ((n - l.length % n) % n) none)

/-- The per-invocation id groups of `DRM_SLURM.kill_tasks`: group job ids
by `grouper(50, ...)` and drop the `None` padding from each group, as the
source's `filter` does. -/
def kill_tasks_chunks (jobIDs : List Str) : List (List Str) :=
  (grouperPadded 50 (jobIDs.map some)).map fun g => g.filterMap id

/-- The `scancel` invocations issued by `DRM_SLURM.kill_tasks`: one
`['scancel', '-Q', pids]` call per group, with `pids` the space-joined
ids of that group. -/
def kill_tasks_invocations (jobIDs : List Str) : List (List Str) :=
  (kill_tasks_chunks jobIDs).map fun g =>
    ["scancel".data, "-Q".data, List.intercalate " ".data g]

/-! ## Helper lemmas -/

theorem dropWhile_len_le (p : α → Bool) : ∀ l : List α, (l.dropWhile p).length ≤ l.length
  | [] => Nat.le_refl _
  | a :: l => by
    rw [List.dropWhile_cons]
    split
    · exact Nat.le_trans (dropWhile_len_le p l) (Nat.le_succ _)
    · exact Nat.le_refl _

theorem dropWhile_head_not (p : α → Bool) :
    ∀ (l : List α) (a : α) (t : List α), l.dropWhile p = a :: t → p a = false
  | [], a, t, h => by simp [List.dropWhile] at h
  | b :: l, a, t, h => by
    rw [List.dropWhile_cons] at h
    by_cases hb : p b = true
    · exact dropWhile_head_not p l a t (by simpa [hb] using h)
    · rw [if_neg (by simp [hb])] at h
      cases h
      simpa using hb

/-! ## C1: completion classification -/

/-- C1 counterexample: the claim says a present task is done only when
its `ST` value is a member of the terminal-state set.  The source tests
substring containment instead (`finished_state in qjobs[jid].get(ST)`), so
a present job whose status is the non-terminal code `CF` is classified
done even though `CF` is not in the set. -/
theorem taskIsDone_membership_cex :
    taskIsDone [("1".data, [("ST".data, "CF".data)])] "1".data = some true ∧
    alookup "1".data [("1".data, [("ST".data, "CF".data)])] ≠ (none : Option Row) ∧
    "CF".data ∉ finishedStates := by
  refine ⟨by decide, by decide, by decide⟩

/-- C1 (amended): a task is classified done iff its job id is absent from
the StatusTable, or some member of the terminal-state set occurs as a
substring of its status-field value; a task with status `PD` is still not
classified done (no terminal code is a substring of `PD`). -/
theorem taskIsDone_amended (qjobs : StatusTable) (jid : Str) :
    (alookup jid qjobs = none → taskIsDone qjobs jid = some true) ∧
    (∀ (row : Row) (st : Str), alookup jid qjobs = some row →
      alookup "ST".data row = some st →
      (taskIsDone qjobs jid = some true ↔ ∃ c ∈ finishedStates, subOf c st = true)) := by
  constructor
  · intro h
    simp [taskIsDone, h]
  · intro row st hrow hst
    simp [taskIsDone, hrow, hst, List.any_eq_true]

/-- C1 witness: applying the amended classification to a concrete table
whose only row has status `PD` shows the task is not classified done. -/
theorem taskIsDone_amended_witness :
    ¬ taskIsDone [("5".data, [("ST".data, "PD".data)])] "5".data = some true := by
  rw [(taskIsDone_amended [("5".data, [("ST".data, "PD".data)])] "5".data).2
    [("ST".data, "PD".data)] "PD".data (by decide) (by decide)]
  decide

/-! ## C7: fail-open bulk status query -/

/-- C7: whenever the `squeue` invocation fails (`CalledProcessError` from
a non-zero exit, or `OSError` from a missing tool or transient OS error),
`_qstat_all` returns an empty StatusTable; its return type carries no
error, so nothing is raised to the caller. -/
theorem qstat_all_fail_open : ∀ e : QstatInvokeError, qstat_all (.error e) = [] :=
  fun _ => rfl

/-! ## C2, C3, C4: the retry loop of accounting retrieval -/

/-- The stripped stderr sentinel is already stripped. -/
theorem pyStrip_sentinel : pyStrip sentinelStderr = sentinelStderr := by decide

/-- The loop never makes more attempts than it has remaining. -/
theorem runAttempts_fst_le (query : Nat → QueryResult) :
    ∀ (rem i : Nat), (runAttempts query i rem).1 ≤ rem := by
  intro rem
  induction rem with
  | zero => intro i; simp [runAttempts]
  | succ n ih =>
    intro i
    by_cases h1 : attemptSucceeded (query i) = true
    · simp [runAttempts, h1]
    · by_cases h2 : pyStrip (query i).stderr = sentinelStderr
      · simp [runAttempts, h1, h2]
      · simp only [runAttempts]
        rw [if_neg h1, if_neg h2]
        exact Nat.succ_le_succ (ih (i + 1))

/-- If every remaining attempt fails without hitting the sentinel, the
loop makes exactly `rem` attempts and exhausts. -/
theorem runAttempts_exhaust (query : Nat → QueryResult) :
    ∀ (rem i : Nat),
    (∀ j, j < rem → attemptSucceeded (query (i + j)) = false ∧
      pyStrip (query (i + j)).stderr ≠ sentinelStderr) →
    runAttempts query i rem = (rem, .exhausted) := by
  intro rem
  induction rem with
  | zero => intro i _; simp [runAttempts]
  | succ n ih =>
    intro i h
    have h0 := h 0 (Nat.succ_pos n)
    rw [Nat.add_zero] at h0
    have hrec : runAttempts query (i + 1) n = (n, .exhausted) := by
      apply ih
      intro j hj
      have := h (j + 1) (Nat.succ_lt_succ hj)
      have harith : i + (j + 1) = i + 1 + j := by omega
      rwa [harith] at this
    simp [runAttempts, h0.1, if_neg h0.2, hrec]

/-- If attempts `i, ..., i+k-1` fail without the sentinel, and attempt
`i+k` fails with the sentinel on stderr, the loop stops after `k + 1`
attempts with the sentinel outcome. -/
theorem runAttempts_sentinel (query : Nat → QueryResult) :
    ∀ (k rem i : Nat), k < rem →
    (∀ j, j < k → attemptSucceeded (query (i + j)) = false ∧
      pyStrip (query (i + j)).stderr ≠ sentinelStderr) →
    attemptSucceeded (query (i + k)) = false →
    pyStrip (query (i + k)).stderr = sentinelStderr →
    runAttempts query i rem = (k + 1, .sentinelHit) := by
  intro k
  induction k with
  | zero =>
    intro rem i hk _ hfail hsent
    obtain ⟨m, rfl⟩ : ∃ m, rem = m + 1 := ⟨rem - 1, by omega⟩
    rw [Nat.add_zero] at hfail hsent
    simp [runAttempts, hfail, hsent]
  | succ n ih =>
    intro rem i hk hearlier hfail hsent
    obtain ⟨m, rfl⟩ : ∃ m, rem = m + 1 := ⟨rem - 1, by omega⟩
    have h0 := hearlier 0 (Nat.succ_pos n)
    rw [Nat.add_zero] at h0
    have harith : i + (n + 1) = i + 1 + n := by omega
    rw [harith] at hfail hsent
    have hrec : runAttempts query (i + 1) m = (n + 1, .sentinelHit) := by
      apply ih m (i + 1) (by omega) _ hfail hsent
      intro j hj
      have := hearlier (j + 1) (Nat.succ_lt_succ hj)
      have harith2 : i + (j + 1) = i + 1 + j := by omega
      rwa [harith2] at this
    simp [runAttempts, h0.1, if_neg h0.2, hrec]

/-- When neither guard of `_qacct_raw` trips, the attempt count is the
loop's attempt count for `timeout / quantum` remaining attempts. -/
theorem qacct_raw_fst (query : Nat → QueryResult) (jobID : Str)
    (timeout quantum : Nat) (hq : quantum ≠ 0) (hn : timeout / quantum ≠ 0) :
    (qacct_raw query jobID timeout quantum).1 =
      (runAttempts query 0 (timeout / quantum)).1 := by
  unfold qacct_raw
  rw [if_neg hq]
  simp only [if_neg hn]
  rcases hrr : runAttempts query 0 (timeout / quantum) with ⟨a, res⟩
  cases res <;> simp [hrr]

/-- C2 counterexample: with total timeout 10 and quantum 15 (both
positive), `timeout / quantum` is 0, so the loop body never runs, no
query attempt is made, and the fallthrough reads the unbound loop
variable; the claimed minimum of one attempt does not happen. -/
theorem qacct_min_one_cex :
    qacct_raw (fun _ => ⟨false, [], ['x']⟩) "9".data 10 15 =
      (0, .error .nameErr) ∧ (0 : Nat) ≠ max (10 / 15) 1 := by
  exact ⟨by decide, by decide⟩

/-- C2 (amended): for a positive quantum, the attempt budget is
`timeout / quantum` rounded down with no minimum: the attempt count never
exceeds it; when it is zero the call makes no attempt and fails with the
unbound-loop-variable error instead of querying once; and a query that
always fails without the sentinel is attempted exactly
`timeout / quantum` times. -/
theorem qacct_attempt_budget (query : Nat → QueryResult) (jobID : Str)
    (timeout quantum : Nat) (hq : 0 < quantum) :
    (qacct_raw query jobID timeout quantum).1 ≤ timeout / quantum ∧
    (timeout / quantum = 0 →
      qacct_raw query jobID timeout quantum = (0, .error .nameErr)) ∧
    ((∀ i, attemptSucceeded (query i) = false ∧
        pyStrip (query i).stderr ≠ sentinelStderr) →
      (qacct_raw query jobID timeout quantum).1 = timeout / quantum) := by
  have hq0 : quantum ≠ 0 := Nat.pos_iff_ne_zero.mp hq
  by_cases hn : timeout / quantum = 0
  · refine ⟨?_, fun _ => ?_, fun _ => ?_⟩ <;>
      simp [qacct_raw, if_neg hq0, hn]
  · refine ⟨?_, fun h0 => absurd h0 hn, fun hfail => ?_⟩
    · rw [qacct_raw_fst query jobID timeout quantum hq0 hn]
      exact runAttempts_fst_le query _ 0
    · rw [qacct_raw_fst query jobID timeout quantum hq0 hn,
        runAttempts_exhaust query (timeout / quantum) 0 (fun j _ => hfail (0 + j))]

/-- C2 witness: instantiating the amended budget at the always-failing
query with timeout 10 and quantum 15 shows zero attempts are made. -/
theorem qacct_attempt_budget_witness :
    (qacct_raw (fun _ => ⟨false, [], ['x']⟩) "9".data 10 15).1 ≤ 10 / 15 ∧
    qacct_raw (fun _ => ⟨false, [], ['x']⟩) "9".data 10 15 =
      (0, .error .nameErr) ∧
    (qacct_raw (fun _ => ⟨false, [], ['x']⟩) "9".data 10 15).1 = 10 / 15 := by
  have h := qacct_attempt_budget (fun _ => ⟨false, [], ['x']⟩) "9".data 10 15
    (by decide)
  have hx : pyStrip ['x'] ≠ sentinelStderr := by decide
  exact ⟨h.1, h.2.1 (by decide), h.2.2 (fun i => ⟨rfl, hx⟩)⟩

/-- C3: if the loop reaches attempt `k` (every earlier attempt failed
without the sentinel), and on attempt `k` the query fails or returns
empty stdout while its captured stderr equals exactly the sentinel
string, then `_qacct_raw` returns, as a non-error outcome, the minimal
record containing only the job identifier, having made exactly `k + 1`
attempts; with `k = 0` this is exactly one attempt. -/
theorem qacct_sentinel_shortcircuit (query : Nat → QueryResult) (jobID : Str)
    (timeout quantum k : Nat) (hq : 0 < quantum) (hk : k < timeout / quantum)
    (hearlier : ∀ j, j < k → attemptSucceeded (query j) = false ∧
      pyStrip (query j).stderr ≠ sentinelStderr)
    (hfail : attemptSucceeded (query k) = false)
    (hsent : (query k).stderr = sentinelStderr) :
    qacct_raw query jobID timeout quantum =
      (k + 1, .ok [("JobId".data, jobID)]) := by
  have hq0 : quantum ≠ 0 := Nat.pos_iff_ne_zero.mp hq
  have hn : timeout / quantum ≠ 0 := by omega
  have hsent2 : pyStrip (query (0 + k)).stderr = sentinelStderr := by
    rw [Nat.zero_add, hsent]
    exact pyStrip_sentinel
  have hrun : runAttempts query 0 (timeout / quantum) = (k + 1, .sentinelHit) := by
    apply runAttempts_sentinel query k (timeout / quantum) 0 hk _ _ hsent2
    · intro j hj
      have := hearlier j hj
      rwa [Nat.zero_add]
    · rwa [Nat.zero_add]
  unfold qacct_raw
  rw [if_neg hq0]
  simp only [if_neg hn, hrun]

/-- C3 witness: a query whose very first attempt fails with the sentinel
stderr makes exactly one attempt and yields the JobId-only record. -/
theorem qacct_sentinel_shortcircuit_witness :
    qacct_raw (fun _ => ⟨false, [], sentinelStderr⟩) "5".data 600 15 =
      (1, .ok [("JobId".data, "5".data)]) :=
  qacct_sentinel_shortcircuit (fun _ => ⟨false, [], sentinelStderr⟩) "5".data
    600 15 0 (by decide) (by decide)
    (fun j hj => absurd hj (by omega)) (by decide) rfl

/-- C4: evaluating `_qacct_raw` at a failing input.  With timeout 30 and
quantum 15 and a query that always fails (stderr never the sentinel),
exactly `30 / 15 = 2` attempts are made and the retrieval then fails
fatally; but the `ValueError` message interpolates the stale loop
variable `i = num_retries - 1 = 1` as its reported number of tries, one
less than the 2 attempts actually made, contradicting the claimed
"attempt count" payload (and the message's own wording). -/
theorem qacct_retry_reports_stale_index :
    qacct_raw (fun _ => ⟨false, [], "boom".data⟩) "7".data 30 15 =
      (2, .error (.retryExhausted "7".data 1)) ∧ (2 : Nat) ≠ 1 := by
  exact ⟨by decide, by decide⟩

/-! ## C5, C6: the key/value parser -/

/-- Spec-side reconstruction of a value split across tokens: the first
value fragment, then each continuation token appended with a single
intervening space. -/
def joinCont (v : Str) (cs : List Str) : Str :=
  cs.foldl (fun a c => a ++ ' ' :: c) v

/-- The parser as the spec words it: each token containing an equals
sign starts (or overwrites) an entry, named by the part before the first
equals sign; the run of following tokens without an equals sign is
appended to that entry's value with single intervening spaces; a
continuation token before any key is a parse error. -/
def specScontrolGo (raw : Str) (acc : List (Str × Str)) :
    List Str → Except ScontrolParseError (List (Str × Str))
  | [] => .ok acc
  | tok :: rest =>
    match splitEq tok with
    | none => .error ⟨tok, raw⟩
    | some (k, v) =>
      specScontrolGo raw
        (aset k (joinCont v (rest.takeWhile fun t => (splitEq t).isNone)) acc)
        (rest.dropWhile fun t => (splitEq t).isNone)
termination_by l => l.length
decreasing_by
  exact Nat.lt_succ_of_le (dropWhile_len_le _ rest)

/-- Top-level spec-side parser: tokenize, then group. -/
def specScontrolParse (raw : Str) : Except ScontrolParseError (List (Str × Str)) :=
  specScontrolGo raw [] (pyWords (pyStrip raw))

/-- Appending to the entry just written equals writing the extended
value. -/
theorem aappend_aset (k : Str) (v s : Str) :
    ∀ acc, aappend k s (aset k v acc) = aset k (v ++ s) acc
  | [] => by simp [aset, aappend]
  | (k2, v2) :: t => by
    by_cases h : k2 = k
    · simp [aset, aappend, h]
    · simp [aset, aappend, h, aappend_aset k v s t]

/-- Consuming a run of continuation tokens appends their join to the
current entry. -/
theorem parseToks_conts (raw : Str) (k : Str) :
    ∀ (cs : List Str), (∀ c ∈ cs, splitEq c = none) →
    ∀ (rest : List Str) (acc : List (Str × Str)) (v : Str),
    parseToks raw (aset k v acc) (some k) (cs ++ rest) =
      parseToks raw (aset k (joinCont v cs) acc) (some k) rest
  | [], _, rest, acc, v => by simp [joinCont]
  | c :: cs, h, rest, acc, v => by
    have hc : splitEq c = none := h c (by simp)
    rw [List.cons_append]
    simp only [parseToks, hc, aappend_aset]
    rw [parseToks_conts raw k cs (fun x hx => h x (by simp [hx])) rest acc
      (v ++ ' ' :: c)]
    rfl

/-- Main equivalence step: starting at the empty list or at a key/value
token, the source's token loop and the spec's grouping parser agree,
whatever the accumulator and current key are. -/
theorem parseToks_eq_spec (raw : Str) :
    ∀ (n : Nat) (ts : List Str), ts.length ≤ n →
    (ts = [] ∨ ∃ t ts2, ts = t :: ts2 ∧ (splitEq t).isSome) →
    ∀ (acc : List (Str × Str)) (cur : Option Str),
    parseToks raw acc cur ts = specScontrolGo raw acc ts := by
  intro n
  induction n with
  | zero =>
    intro ts hlen _ acc cur
    have : ts = [] := List.eq_nil_of_length_eq_zero (Nat.le_zero.mp hlen)
    subst this
    cases cur <;> simp [parseToks, specScontrolGo]
  | succ n ih =>
    intro ts hlen hhead acc cur
    rcases hhead with rfl | ⟨t, ts2, rfl, hsome⟩
    · cases cur <;> simp [parseToks, specScontrolGo]
    · obtain ⟨⟨k, v⟩, hkv⟩ := Option.isSome_iff_exists.mp hsome
      simp only [parseToks, specScontrolGo, hkv]
      have hsplit :
          (ts2.takeWhile fun t => (splitEq t).isNone) ++
            (ts2.dropWhile fun t => (splitEq t).isNone) = ts2 :=
        List.takeWhile_append_dropWhile _ _
      have hcont : ∀ c ∈ ts2.takeWhile fun t => (splitEq t).isNone,
          splitEq c = none := by
        intro c hc
        have h2 := List.mem_takeWhile_imp hc
        simpa [Option.isNone_iff_eq_none] using h2
      conv_lhs => rw [← hsplit]
      rw [parseToks_conts raw k _ hcont _ acc v]
      apply ih
      · calc (ts2.dropWhile fun t => (splitEq t).isNone).length
            ≤ ts2.length := dropWhile_len_le _ ts2
          _ ≤ n := by simpa using Nat.lt_succ_iff.mp (Nat.lt_of_lt_of_le (by simp) hlen)
      · cases hd : ts2.dropWhile fun t => (splitEq t).isNone with
        | nil => exact Or.inl rfl
        | cons t2 r =>
          refine Or.inr ⟨t2, r, rfl, ?_⟩
          have := dropWhile_head_not (fun t => (splitEq t).isNone) ts2 t2 r hd
          cases hsc : splitEq t2 with
          | none => simp [hsc] at this
          | some kv2 => simp

/-- C5: the source parser agrees everywhere with the spec's description
(split each equals-bearing token at its first equals sign to start or
overwrite an entry; append each equals-free token to the previous value
with a single intervening space), and in particular parsing
`A=1 extra B=2` yields the two entries `A = 1 extra` and `B = 2`. -/
theorem scontrolParse_spec :
    (∀ raw : Str, scontrolParse raw = specScontrolParse raw) ∧
    scontrolParse "A=1 extra B=2".data =
      .ok [("A".data, "1 extra".data), ("B".data, "2".data)] := by
  constructor
  · intro raw
    unfold scontrolParse specScontrolParse
    cases hts : pyWords (pyStrip raw) with
    | nil => simp [parseToks, specScontrolGo]
    | cons t ts2 =>
      cases hsc : splitEq t with
      | none => simp [parseToks, specScontrolGo, hsc]
      | some kv =>
        exact parseToks_eq_spec raw (t :: ts2).length (t :: ts2) (Nat.le_refl _)
          (Or.inr ⟨t, ts2, rfl, by simp [hsc]⟩) [] none
  · decide

/-- A token with no equals sign splits to `none`. -/
theorem splitEq_eq_none (t : Str) (h : '=' ∉ t) : splitEq t = none := by
  unfold splitEq
  rw [List.span_eq_take_drop]
  have hd : t.dropWhile (fun c => !(c == '=')) = [] := by
    induction t with
    | nil => rfl
    | cons c cs ih =>
      have hc : ¬ c = '=' := fun hc => h (hc ▸ List.mem_cons_self c cs)
      rw [List.dropWhile_cons, if_pos (by simp [hc])]
      exact ih (fun hm => h (List.mem_cons_of_mem c hm))
  simp [hd]

/-- C6: when the first token of the (whitespace-tokenized) input contains
no equals sign, the parser fails with a ParseError carrying the offending
token and the full raw text. -/
theorem scontrol_continuation_without_key (raw t : Str) (ts : List Str)
    (htoks : pyWords (pyStrip raw) = t :: ts) (hne : '=' ∉ t) :
    scontrolParse raw = .error ⟨t, raw⟩ := by
  unfold scontrolParse
  rw [htoks]
  simp [parseToks, splitEq_eq_none t hne]

/-- C6 witness: parsing `extra B=2` fails with the ParseError carrying
the token `extra` and the raw text. -/
theorem scontrol_continuation_without_key_witness :
    scontrolParse "extra B=2".data = .error ⟨"extra".data, "extra B=2".data⟩ :=
  scontrol_continuation_without_key "extra B=2".data "extra".data ["B=2".data]
    (by decide) (by decide)

/-! ## C8: submission id extraction -/

/-- Soundness of the anchored pattern match: a successful match at the
start of the string is a non-empty all-digit run placed right after the
literal `job ` prefix. -/
theorem jobPrefixDigits_sound (s : Str) (ds : Str)
    (h : jobPrefixDigits s = some ds) :
    ds ≠ [] ∧ (∀ c ∈ ds, c.isDigit = true) ∧ ∃ b, s = "job ".data ++ ds ++ b := by
  unfold jobPrefixDigits at h
  split at h
  case _ rest =>
    cases hd : digitRun rest with
    | nil => rw [hd] at h; exact absurd h (by simp)
    | cons d ds2 =>
      rw [hd] at h
      cases h
      refine ⟨by simp, ?_, ?_⟩
      · intro c hc
        rw [← hd] at hc
        exact List.mem_takeWhile_imp hc
      · refine ⟨rest.dropWhile Char.isDigit, ?_⟩
        have h2 : (d :: ds2) ++ rest.dropWhile Char.isDigit = rest := by
          rw [← hd]
          exact List.takeWhile_append_dropWhile _ _
        conv_lhs => rw [← h2]
        simp
  case _ => exact absurd h (by simp)

/-- Soundness of the scan: a successful search yields a non-empty
all-digit run that occurs in the string immediately after the literal
`job ` (space included). -/
theorem searchJobDigits_sound :
    ∀ (s ds : Str), searchJobDigits s = some ds →
    ds ≠ [] ∧ (∀ c ∈ ds, c.isDigit = true) ∧
      ∃ a b, s = a ++ "job ".data ++ ds ++ b := by
  intro s
  induction s with
  | nil => intro ds h; exact absurd h (by simp [searchJobDigits])
  | cons c cs ih =>
    intro ds h
    rw [searchJobDigits] at h
    cases hp : jobPrefixDigits (c :: cs) with
    | some ds2 =>
      rw [hp] at h
      cases h
      obtain ⟨hne, hdig, b, hs⟩ := jobPrefixDigits_sound (c :: cs) ds hp
      exact ⟨hne, hdig, [], b, by simpa using hs⟩
    | none =>
      rw [hp] at h
      obtain ⟨hne, hdig, a, b, hs⟩ := ih ds h
      exact ⟨hne, hdig, c :: a, b, by simp [hs]⟩

/-- C8 counterexample: the claim says a stdout with no match fails with a
ParseError carrying the raw stdout.  In the source the failure is
`None.group(1)`, a Python `AttributeError` with a fixed message: the
resulting error value is one and the same for two different stdouts, so
it cannot carry the raw stdout. -/
theorem submit_error_payload_cex :
    submit_jobID_extract "no identifier present".data = .error .attributeError ∧
    submit_jobID_extract "different bad output".data = .error .attributeError ∧
    "no identifier present".data ≠ "different bad output".data := by
  refine ⟨by decide, by decide, by decide⟩

/-- C8 (amended): submission returns the first run of digits following
`job ` in stdout (so `Submitted batch job 4821` yields `4821`, and any
returned id is a non-empty digit run preceded by `job `); when stdout
contains no such match it fails, but with an untyped attribute error
that carries no payload, not a ParseError carrying the raw stdout. -/
theorem submit_jobID_extraction (s : Str) :
    (∀ ds, searchJobDigits s = some ds →
      submit_jobID_extract s = .ok ds ∧ ds ≠ [] ∧
      (∀ c ∈ ds, c.isDigit = true) ∧ ∃ a b, s = a ++ "job ".data ++ ds ++ b) ∧
    (searchJobDigits s = none →
      submit_jobID_extract s = .error .attributeError) ∧
    submit_jobID_extract "Submitted batch job 4821".data = .ok "4821".data := by
  refine ⟨?_, ?_, by decide⟩
  · intro ds h
    obtain ⟨hne, hdig, a, b, hs⟩ := searchJobDigits_sound s ds h
    exact ⟨by simp [submit_jobID_extract, h], hne, hdig, a, b, hs⟩
  · intro h
    simp [submit_jobID_extract, h]

/-- C8 witness: instantiating the amended extraction at the example
stdout shows the extracted id `4821` is a digit run following `job `. -/
theorem submit_jobID_extraction_witness :
    submit_jobID_extract "Submitted batch job 4821".data = .ok "4821".data ∧
    "4821".data ≠ [] := by
  have h := (submit_jobID_extraction "Submitted batch job 4821".data).1
    "4821".data (by decide)
  exact ⟨h.1, h.2.1⟩

/-! ## C9: cancellation chunking -/

/-- With enough fuel, concatenating the chunks gives back the list. -/
theorem chunksOfAux_join (n : Nat) :
    ∀ (fuel : Nat) (l : List α), l.length ≤ fuel → (chunksOfAux n fuel l).flatten = l
  | 0, [] => by intro _; simp [chunksOfAux]
  | 0, x :: xs => by intro h; simp at h
  | fuel + 1, [] => by intro _; simp [chunksOfAux]
  | fuel + 1, x :: xs => by
    intro h
    have hrec : (chunksOfAux n fuel (xs.drop (n - 1))).flatten = xs.drop (n - 1) := by
      apply chunksOfAux_join n fuel
      rw [List.length_drop]
      simp at h
      omega
    simp only [chunksOfAux, List.flatten_cons, hrec]
    simp [List.take_append_drop]

/-- Every chunk contains at most `max n 1` elements. -/
theorem chunksOfAux_mem_length (n : Nat) :
    ∀ (fuel : Nat) (l : List α) (c : List α),
    c ∈ chunksOfAux n fuel l → c.length ≤ max n 1
  | 0, l, c => by intro hc; simp [chunksOfAux] at hc
  | fuel + 1, [], c => by intro hc; simp [chunksOfAux] at hc
  | fuel + 1, x :: xs, c => by
    intro hc
    simp only [chunksOfAux, List.mem_cons] at hc
    rcases hc with rfl | hc
    · have : (xs.take (n - 1)).length ≤ n - 1 := List.length_take_le _ _
      simp only [List.length_cons]
      omega
    · exact chunksOfAux_mem_length n fuel (xs.drop (n - 1)) c hc

/-- Joining the per-chunk filtered groups equals filtering the joined
list. -/
theorem join_map_filterMap :
    ∀ L : List (List (Option α)),
    (L.map fun g => g.filterMap id).flatten = L.flatten.filterMap id
  | [] => by simp
  | g :: L => by
    rw [List.map_cons, List.flatten_cons, List.flatten_cons, List.filterMap_append,
      join_map_filterMap L]

/-- Dropping the `None` padding from the padded id list recovers the
ids. -/
theorem filterMap_id_pad (l : List α) (k : Nat) :
    ((l.map some) ++ List.replicate k (none : Option α)).filterMap id = l := by
  rw [List.filterMap_append]
  have h1 : (l.map some).filterMap id = l := by
    rw [List.filterMap_map]
    simp
  have h2 : (List.replicate k (none : Option α)).filterMap id = [] := by
    induction k with
    | zero => simp
    | succ m ih => simp [List.replicate, ih]
  rw [h1, h2, List.append_nil]

/-- C9: cancellation partitions the job ids into consecutive chunks of at
most 50 (whose concatenation is the original id list) and issues one
`scancel` invocation per chunk; 120 ids produce exactly 3 invocations
with chunk sizes 50, 50 and 20. -/
theorem kill_tasks_chunking :
    (∀ ids : List Str, (kill_tasks_chunks ids).flatten = ids ∧
      ∀ c, c ∈ kill_tasks_chunks ids → c.length ≤ 50) ∧
    ((kill_tasks_chunks (List.replicate 120 "1".data)).map List.length =
        [50, 50, 20] ∧
      (kill_tasks_invocations (List.replicate 120 "1".data)).length = 3) := by
  constructor
  · intro ids
    constructor
    · unfold kill_tasks_chunks grouperPadded chunksOf
      rw [join_map_filterMap, chunksOfAux_join 50 _ _ (Nat.le_refl _),
        filterMap_id_pad]
    · intro c hc
      unfold kill_tasks_chunks at hc
      obtain ⟨g, hg, rfl⟩ := List.mem_map.mp hc
      calc (g.filterMap id).length
          ≤ g.length := List.length_filterMap_le _ _
        _ ≤ max 50 1 := chunksOfAux_mem_length 50 _ _ g hg
        _ = 50 := by decide
  · exact ⟨by decide, by decide⟩

/-- C9 witness: applying the chunking theorem to 51 concrete ids shows
the chunks concatenate to the original ids and the first chunk (the
50-element one) respects the bound. -/
theorem kill_tasks_chunking_witness :
    (kill_tasks_chunks (List.replicate 51 "1".data)).flatten =
      List.replicate 51 "1".data ∧
    (List.replicate 50 "1".data : List Str).length ≤ 50 := by
  have h := kill_tasks_chunking.1 (List.replicate 51 "1".data)
  exact ⟨h.1, h.2 (List.replicate 50 "1".data) (by decide)⟩

/-! ## C10: drm_statuses -/

/-- Looking up a task id in the comprehension-built mapping yields the
value computed for it. -/
theorem alookup_map_self (g : Str → Str) :
    ∀ (tasks : List Str) (jid : Str), jid ∈ tasks →
    alookup jid (tasks.map fun j => (j, g j)) = some (g jid)
  | [], jid, h => absurd h (List.not_mem_nil jid)
  | t :: ts, jid, h => by
    by_cases ht : t = jid
    · subst ht
      simp [alookup]
    · have : jid ∈ ts := by
        rcases List.mem_cons.mp h with rfl | hm
        · exact absurd rfl ht
        · exact hm
      simp only [List.map_cons, alookup, if_neg ht]
      exact alookup_map_self g ts jid this

/-- C10: for the empty task collection `drm_statuses` returns the empty
mapping without invoking the listing command (flag `false`); for a
non-empty collection it invokes the listing command once and maps every
task's job id to its row's `ST` value, with `???` when the id is absent
from the bulk status table or its row has no `ST` field. -/
theorem drm_statuses_spec (tasks : List Str)
    (result : Except QstatInvokeError Str) :
    drm_statuses [] result = (false, []) ∧
    (tasks ≠ [] → (drm_statuses tasks result).1 = true) ∧
    (∀ jid, jid ∈ tasks →
      (alookup jid (qstat_all result) = none →
        alookup jid (drm_statuses tasks result).2 = some "???".data) ∧
      (∀ row : Row, alookup jid (qstat_all result) = some row →
        alookup "ST".data row = none →
        alookup jid (drm_statuses tasks result).2 = some "???".data) ∧
      (∀ (row : Row) (st : Str), alookup jid (qstat_all result) = some row →
        alookup "ST".data row = some st →
        alookup jid (drm_statuses tasks result).2 = some st)) := by
  refine ⟨rfl, ?_, ?_⟩
  · intro hne
    cases tasks with
    | nil => exact absurd rfl hne
    | cons t ts => rfl
  · intro jid hmem
    cases tasks with
    | nil => exact absurd hmem (List.not_mem_nil jid)
    | cons t ts =>
      have hbase := alookup_map_self
        (fun j => (alookup "ST".data ((alookup j (qstat_all result)).getD [])).getD
          "???".data) (t :: ts) jid hmem
      refine ⟨?_, ?_, ?_⟩
      · intro hnone
        rw [show (drm_statuses (t :: ts) result).2 = (t :: ts).map
          (fun j => (j, (alookup "ST".data
            ((alookup j (qstat_all result)).getD [])).getD "???".data)) from rfl]
        rw [hbase]
        simp [hnone, alookup]
      · intro row hrow hst
        rw [show (drm_statuses (t :: ts) result).2 = (t :: ts).map
          (fun j => (j, (alookup "ST".data
            ((alookup j (qstat_all result)).getD [])).getD "???".data)) from rfl]
        rw [hbase]
        simp [hrow, hst]
      · intro row st hrow hst
        rw [show (drm_statuses (t :: ts) result).2 = (t :: ts).map
          (fun j => (j, (alookup "ST".data
            ((alookup j (qstat_all result)).getD [])).getD "???".data)) from rfl]
        rw [hbase]
        simp [hrow, hst]

/-- C10 witness: with tasks `12` and `99` and a concrete squeue output
listing only job `12` with status `PD`, task `12` maps to `PD` and the
absent task `99` maps to `???`. -/
theorem drm_statuses_spec_witness :
    alookup "12".data
      (drm_statuses ["12".data, "99".data] (.ok "JOBID ST\n12 PD".data)).2 =
      some "PD".data ∧
    alookup "99".data
      (drm_statuses ["12".data, "99".data] (.ok "JOBID ST\n12 PD".data)).2 =
      some "???".data := by
  have h := drm_statuses_spec ["12".data, "99".data] (.ok "JOBID ST\n12 PD".data)
  refine ⟨?_, ?_⟩
  · exact (h.2.2 "12".data (by decide)).2.2
      [("JOBID".data, "12".data), ("ST".data, "PD".data)] "PD".data
      (by decide) (by decide)
  · exact (h.2.2 "99".data (by decide)).1 (by decide)
